import Mathlib

/-
Verification of the EarnQuest Telegram bot's group-moderation core
(bot.py): the spam/link moderation decision process, the warning
escalation ledger, the sliding rate window, the intent responder, the
scheduled-broadcast dispatcher and the moderation-settings refresh.

The Python code is shallowly embedded: the mutable dictionaries
`message_counts`, `warned_users` and `mod_settings` become explicit
state values threaded through pure functions, timestamps become natural
numbers counting seconds, and the network side effects (delete, warn,
mute, ban, report-to-backend, send) become entries of explicit
event/call lists returned by the functions.
-/

namespace EarnQuest

/-! ### Association-list model of Python dictionaries -/

/-- Lookup in an association list, modelling Python `d.get(k)` /
`d[k]` on a dict with unique keys. -/
def dictGet {α β : Type} [DecidableEq α] : List (α × β) → α → Option β
  | [], _ => none
  | (k, v) :: rest, key => if k = key then some v else dictGet rest key

/-- Store a binding, modelling Python `d[k] = v`: replaces the existing
binding for `k` or appends a fresh one. -/
def dictSet {α β : Type} [DecidableEq α] : List (α × β) → α → β → List (α × β)
  | [], key, v => [(key, v)]
  | (k, w) :: rest, key, v =>
      if k = key then (k, v) :: rest else (k, w) :: dictSet rest key v

/-- Remove a binding, modelling Python `del d[k]`. -/
def dictDel {α β : Type} [DecidableEq α] : List (α × β) → α → List (α × β)
  | [], _ => []
  | (k, w) :: rest, key => if k = key then rest else (k, w) :: dictDel rest key

/-! ### Text: word characters and the link pattern

The moderation regex in `moderate_message` is
`r'(https?://|www\.|t\.me/|@\w+)'` searched case-insensitively over the
message text.  It is embedded as a direct scan over the character list:
at each suffix, one of the four alternatives may match. -/

/-- Python regex `\w` on ASCII text: letters (65-90, 97-122), digits
(48-57) and underscore (95), stated on code points. -/
def isWordChar (c : Char) : Bool :=
  (65 ≤ c.toNat && c.toNat ≤ 90) || (97 ≤ c.toNat && c.toNat ≤ 122) ||
  (48 ≤ c.toNat && c.toNat ≤ 57) || c.toNat == 95

/-- Case-insensitive comparison of two characters, for the
`re.IGNORECASE` flag. -/
def lcEq (a b : Char) : Bool := a.toLower = b.toLower

/-- Does `pat` match case-insensitively at the head of `cs`? -/
def startsWithCI : List Char → List Char → Bool
  | [], _ => true
  | _ :: _, [] => false
  | p :: ps, c :: cs => lcEq p c && startsWithCI ps cs

/-- The `@\w` alternative: an at sign followed by a word character at
the head of `cs`. -/
def atHandleAt (cs : List Char) : Bool :=
  match cs with
  | a :: d :: _ => a == '@' && isWordChar d
  | _ => false

/-- Does one alternative of the link pattern match at the head of `cs`?
Alternatives: `https?://`, `www.`, `t.me/`, `@` followed by a word
character. -/
def linkAt (cs : List Char) : Bool :=
  startsWithCI "http://".toList cs ||
  startsWithCI "https://".toList cs ||
  startsWithCI "www.".toList cs ||
  startsWithCI "t.me/".toList cs ||
  atHandleAt cs

/-- Python `re.search` of the link pattern: does any suffix match? -/
def hasLink : List Char → Bool
  | [] => false
  | c :: cs => linkAt (c :: cs) || hasLink cs

/-- Python `a or b` over an optional string and a default: `None` and
the empty string are falsy. -/
def pyOrStr (a : Option String) (b : String) : String :=
  match a with
  | some s => if s = "" then b else s
  | none => b


/-! ### Moderation settings, state and events -/

/-- The fields of `self.mod_settings` that the moderation decision
reads.  The string templates (welcome/rules) do not influence any
moderation decision and are kept out of this record; the full
key/value view of `mod_settings` used by the settings refresh is
modelled separately for `fetch_mod_settings`. -/
structure ModSettings where
  allow_links : Bool
  allow_forwards : Bool
  max_messages_per_minute : Nat
  mute_duration_minutes : Nat
deriving DecidableEq, Repr

/-- Defaults assigned in `EarnQuestBot.__init__`. -/
def default_mod_settings : ModSettings :=
  { allow_links := false
    allow_forwards := true
    max_messages_per_minute := 5
    mute_duration_minutes := 30 }

/-- Sender role as seen through `context.bot.get_chat_member`:
the two privileged statuses, any non-privileged status, or the lookup
raising an exception (the bare `except: pass` in `moderate_message`). -/
inductive Role where
  | administrator
  | owner
  | member
  | lookupError
deriving DecidableEq, Repr

/-- Chat type of the incoming update. -/
inductive ChatKind where
  | group
  | supergroup
  | privateChat
  | channel
deriving DecidableEq, Repr

/-- Events reported to the backend by the moderation path
(`report_to_backend` event types). -/
inductive Event where
  | message_deleted (userId : Nat)
  | user_warned (userId : Nat) (count : Nat)
  | user_banned (userId : Nat) (count : Nat)
  | user_muted (userId : Nat) (minutes : Nat)
deriving DecidableEq, Repr

/-- Mutable moderation state of the bot object:
`self.message_counts : user_id -> list of timestamps` and
`self.warned_users : user_id -> warning count`. -/
structure ModState where
  message_counts : List (Nat × List Nat)
  warned_users : List (Nat × Nat)
deriving DecidableEq, Repr

/-- Python `(now - ts).seconds` for `ts <= now`, with timestamps in
whole seconds: `timedelta.seconds` is the seconds-of-day component of
the difference, i.e. the total difference modulo 86400. -/
def pySeconds (delta : Nat) : Nat := delta % 86400

/-- Embedding of `EarnQuestBot.check_spam` acting on one user's
timestamp list: drop entries whose `timedelta.seconds` is not below
60, append the current time, and report spam when the resulting
length exceeds `max_messages_per_minute`. -/
def check_spam (maxPerMinute : Nat) (tss : List Nat) (now : Nat) :
    List Nat × Bool :=
  let cleaned := tss.filter (fun ts => pySeconds (now - ts) < 60)
  let updated := cleaned ++ [now]
  (updated, updated.length > maxPerMinute)

/-- Embedding of `check_spam`'s effect on the whole `message_counts`
dictionary (including the `if user_id not in ...: ... = []`
initialisation). -/
def check_spam_user (maxPerMinute : Nat) (counts : List (Nat × List Nat))
    (userId : Nat) (now : Nat) : List (Nat × List Nat) × Bool :=
  let tss := (dictGet counts userId).getD []
  let r := check_spam maxPerMinute tss now
  (dictSet counts userId r.1, r.2)

/-- Embedding of `EarnQuestBot.warn_user_internal`: increment the
per-user warning counter; at 3 or more, ban, report `user_banned` and
delete the ledger entry (and report no warning); otherwise report
`user_warned` with the running count. -/
def warn_user_internal (ledger : List (Nat × Nat)) (userId : Nat) :
    List (Nat × Nat) × Event :=
  let prev := (dictGet ledger userId).getD 0
  let warnings := prev + 1
  let ledger1 := dictSet ledger userId warnings
  if warnings ≥ 3 then
    (dictDel ledger1 userId, Event.user_banned userId warnings)
  else
    (ledger1, Event.user_warned userId warnings)

/-- An incoming group message as `moderate_message` sees it:
`message.text`, `message.caption`, `message.forward_date` truthiness. -/
structure GroupMessage where
  text : Option String
  caption : Option String
  isForward : Bool
deriving DecidableEq, Repr

/-- Embedding of `EarnQuestBot.moderate_message`.  Returns the Python
return value (`True` iff the message was deleted/actioned), the updated
moderation state, and the reported events in order.  The checks run in
the source's order: group-only guard, privileged-role exemption (a
role-lookup exception falls through and moderation continues), link
check, spam check, forward check. -/
def moderate_message (s : ModSettings) (role : Role) (kind : ChatKind)
    (msg : GroupMessage) (st : ModState) (userId : Nat) (now : Nat) :
    Bool × ModState × List Event :=
  if kind ≠ ChatKind.group ∧ kind ≠ ChatKind.supergroup then
    (false, st, [])
  else if role = Role.administrator ∨ role = Role.owner then
    (false, st, [])
  else
    let text := pyOrStr msg.text (pyOrStr msg.caption "")
    if !s.allow_links && hasLink text.toList then
      let r := warn_user_internal st.warned_users userId
      (true, { st with warned_users := r.1 },
       [Event.message_deleted userId, r.2])
    else
      let sc := check_spam_user s.max_messages_per_minute st.message_counts userId now
      if sc.2 then
        (true, { st with message_counts := sc.1 },
         [Event.user_muted userId 5])
      else if msg.isForward && !s.allow_forwards then
        (true, { st with message_counts := sc.1 }, [])
      else
        (false, { st with message_counts := sc.1 }, [])

/-! ### Intent responder -/

/-- Exact (case-sensitive) prefix test on character lists. -/
def isPrefixOfChars : List Char → List Char → Bool
  | [], _ => true
  | _ :: _, [] => false
  | a :: as, b :: bs => a = b && isPrefixOfChars as bs

/-- Python `pat in text` substring containment on character lists. -/
def containsSub (pat : List Char) : List Char → Bool
  | [] => isPrefixOfChars pat []
  | c :: rest => isPrefixOfChars pat (c :: rest) || containsSub pat rest

/-- Keys of `self.knowledge_base` in insertion order.  The response
template texts are elided: no decision in the responder depends on
them, only on key membership and iteration order. -/
def knowledge_base_keys : List String :=
  ["withdraw", "faucet", "referral", "task", "survey", "offerwall",
   "offer", "payment", "help", "earn", "minimum", "balance", "login",
   "register", "start"]

/-- The `keywords_map` table of `intelligent_response`, in source
order. -/
def keywords_map : List (String × List String) :=
  [("withdraw", ["withdraw", "payout", "cash out", "payment", "get money", "get paid"]),
   ("faucet", ["faucet", "free", "claim"]),
   ("referral", ["referral", "refer", "invite", "friend", "commission"]),
   ("task", ["task", "job", "work", "complete"]),
   ("survey", ["survey", "offerwall", "offer"]),
   ("payment", ["paypal", "usdt", "crypto", "litecoin", "skrill"]),
   ("help", ["help", "support", "problem", "issue", "contact"]),
   ("earn", ["earn", "money", "make money", "how to", "start"]),
   ("minimum", ["minimum", "min", "requirement", "need", "qualifying"]),
   ("balance", ["balance", "check", "how much"]),
   ("login", ["login", "sign in", "log in", "access"]),
   ("register", ["register", "sign up", "create account", "join"])]

/-- Score of one topic: `sum(1 for kw in keywords if kw in text)`. -/
def score (t : List Char) (kws : List String) : Nat :=
  (kws.filter (fun kw => containsSub kw.toList t)).length

/-- The best-match loop of `intelligent_response`: a fold carrying
`(best_match, best_score)`, updating only on strictly greater score. -/
def pickBest (t : List Char) :
    List (String × List String) → Option String × Nat → Option String × Nat
  | [], acc => acc
  | (k, kws) :: rest, acc =>
      if acc.2 < score t kws then pickBest t rest (some k, score t kws)
      else pickBest t rest acc

/-- Result of the responder: a knowledge-base entry (identified by its
topic key) or the fixed capability-summary fallback text. -/
inductive Reply where
  | kb (topic : String)
  | fallback
deriving DecidableEq, Repr

/-- Embedding of `EarnQuestBot.intelligent_response` on the (already
lowercased) text: run the best-match loop over `keywords_map` starting
from `(None, 0)`; answer with the matched knowledge-base entry when a
best match exists and its key is in the knowledge base, else with the
default fallback message. -/
def intelligent_response (t : List Char) : Reply :=
  let best := pickBest t keywords_map (none, 0)
  match best.1 with
  | some k =>
      if knowledge_base_keys.contains k then Reply.kb k else Reply.fallback
  | none => Reply.fallback

/-- Question markers of the not-addressed scan:
`'?' in text or 'how' in text or 'what' in text or 'where' in text`. -/
def hasQuestionMarker (t : List Char) : Bool :=
  containsSub "?".toList t || containsSub "how".toList t ||
  containsSub "what".toList t || containsSub "where".toList t

/-- The not-addressed scan of `handle_group_message`: first knowledge
base key (in insertion order) contained in the text when a question
marker is present. -/
def kb_scan (t : List Char) : Option String :=
  knowledge_base_keys.find? (fun k => containsSub k.toList t && hasQuestionMarker t)

/-- Model of Python `str.lower()` on ASCII text (`Char.toLower` maps
the basic latin uppercase letters and fixes everything else, as the
source texts here are ASCII). -/
def lowerList (t : List Char) : List Char := t.map Char.toLower

/-- Visible outcome of `handle_group_message` for one group message. -/
inductive HandlerResult where
  | moderated
  | kbReply (topic : String)
  | addressed (r : Reply)
  | noResponse
deriving DecidableEq, Repr

/-- Embedding of `EarnQuestBot.handle_group_message`: moderate first
(stopping if the message was actioned), then compute whether the bot
was addressed (reply to one of its messages, or `@username` mention in
the lowercased text), and route to the keyword scan or to
`intelligent_response`. -/
def handle_group_message (s : ModSettings) (role : Role) (kind : ChatKind)
    (botUsername : String) (msg : GroupMessage) (replyToBot : Bool)
    (st : ModState) (userId : Nat) (now : Nat) : HandlerResult × ModState :=
  let m := moderate_message s role kind msg st userId now
  if m.1 then (HandlerResult.moderated, m.2.1)
  else
    let text := lowerList (msg.text.getD "").toList
    let mention := '@' :: lowerList botUsername.toList
    let botMentioned := replyToBot || containsSub mention text
    if !botMentioned then
      match kb_scan text with
      | some k => (HandlerResult.kbReply k, m.2.1)
      | none => (HandlerResult.noResponse, m.2.1)
    else
      (HandlerResult.addressed (intelligent_response text), m.2.1)

/-! ### Settings refresh -/

/-- Result of one `api_request` call: a transport exception, or a
response with a status code and parsed JSON body. -/
inductive ApiResult (β : Type) where
  | err
  | ok (status : Nat) (body : β)
deriving DecidableEq, Repr

/-- Python `old.update(new)`: iterate the items of `new` in order,
storing each into `old`. -/
def dictUpdate {α β : Type} [DecidableEq α]
    (old new : List (α × β)) : List (α × β) :=
  new.foldl (fun acc p => dictSet acc p.1 p.2) old

/-- Embedding of `EarnQuestBot.fetch_mod_settings` over the full
key/value view of `mod_settings` (values of type `β`, abstracting the
JSON values): on a transport error or a non-200 status the settings are
untouched, otherwise the fetched object is merged over them with
`dict.update`. -/
def fetch_mod_settings {β : Type} (settings : List (String × β))
    (r : ApiResult (List (String × β))) : List (String × β) :=
  match r with
  | ApiResult.err => settings
  | ApiResult.ok status body =>
      if status = 200 then dictUpdate settings body else settings

/-! ### Broadcast dispatcher -/

/-- Python `text.replace(pat, repl)` on character lists (for nonempty
`pat`): scan left to right, replacing each non-overlapping occurrence. -/
def replaceAll (pat repl : List Char) : List Char → List Char
  | [] => []
  | c :: rest =>
      if isPrefixOfChars pat (c :: rest) then
        repl ++ replaceAll pat repl (List.drop (pat.length - 1) rest)
      else
        c :: replaceAll pat repl rest
termination_by t => t.length
decreasing_by
  · simp only [List.length_cons, List.length_drop]
    omega
  · simp only [List.length_cons]
    omega

/-- The fixed `self.website_url`. -/
def website_url : String := "https://earnquestapp.com"

/-- One scheduled post as fetched from the backend. -/
structure ScheduledPost where
  id : Nat
  post_type : String
  content : String
  image_url : Option String
  target_groups : List Int
deriving DecidableEq, Repr

/-- Outbound calls made by the broadcast dispatcher, in order. -/
inductive BotCall where
  | sendPhoto (chat : Int) (photo : String) (caption : String)
  | sendMessage (chat : Int) (content : String)
  | reportPostSent (postId : Nat) (target : Int)
  | reportError (postId : Nat) (target : Int)
  | markExecuted (postId : Nat)
deriving DecidableEq, Repr

/-- Delivery attempt and its per-target outcome reporting for one
target chat of a post, as in the loop body of
`execute_scheduled_post`: the send is attempted; on success a
`post_sent` event is reported, on an exception the error is caught and
an `error` event carrying the post id and the failing target is
reported instead. `deliverOk` is the delivery oracle saying which
targets the transport can reach. -/
def dispatch_to_target (deliverOk : Int → Bool) (postId : Nat)
    (imageUrl : Option String) (content : String) (g : Int) : List BotCall :=
  let attempt :=
    match imageUrl with
    | some u => BotCall.sendPhoto g u content
    | none => BotCall.sendMessage g content
  if deliverOk g then [attempt, BotCall.reportPostSent postId g]
  else [attempt, BotCall.reportError postId g]

/-- Embedding of `EarnQuestBot.execute_scheduled_post`: substitute the
website placeholder, fan out to every target independently, and after
the loop call mark-executed exactly once. -/
def execute_scheduled_post (deliverOk : Int → Bool) (post : ScheduledPost) :
    List BotCall :=
  let content := String.mk
    (replaceAll "{website}".toList website_url.toList post.content.toList)
  post.target_groups.flatMap
    (dispatch_to_target deliverOk post.id post.image_url content)
  ++ [BotCall.markExecuted post.id]

/-- Embedding of `EarnQuestBot.fetch_scheduled_posts`: on a transport
error or non-200 status the cycle is aborted silently, otherwise every
fetched post is executed in order. -/
def fetch_scheduled_posts (deliverOk : Int → Bool)
    (r : ApiResult (List ScheduledPost)) : List BotCall :=
  match r with
  | ApiResult.err => []
  | ApiResult.ok status posts =>
      if status = 200 then
        posts.flatMap (execute_scheduled_post deliverOk)
      else []

/-! ### Helper notions used by the statements -/

/-- Invariant of the warning ledger: unique keys, and every stored
count is 1 or 2. -/
def LedgerInv (L : List (Nat × Nat)) : Prop :=
  (L.map Prod.fst).Nodup ∧ ∀ uid n, dictGet L uid = some n → n = 1 ∨ n = 2

/-- Fold of `max` with a seed, the specification-side notion of the
highest score. -/
def listMaxFrom (s : Nat) (l : List Nat) : Nat := l.foldl max s

/-- Scores of all topics of `keywords_map` for a given text, in table
order. -/
def topicScores (t : List Char) : List Nat :=
  keywords_map.map (fun p => score t p.2)

/-- Selection rule as the specification words it: the topic with the
strictly highest (maximum) score, first-seen topic winning ties; no
topic when the best score is zero. -/
def specBestTopic (t : List Char) : Option String :=
  let m := listMaxFrom 0 (topicScores t)
  if m = 0 then none
  else (keywords_map.find? (fun p => score t p.2 = m)).map Prod.fst

/-- Recognizer for the mark-executed call. -/
def isMarkExecuted : BotCall → Bool
  | BotCall.markExecuted _ => true
  | _ => false

/-- Target chat of a delivery attempt, `none` for non-delivery calls. -/
def attemptTarget : BotCall → Option Int
  | BotCall.sendPhoto g _ _ => some g
  | BotCall.sendMessage g _ => some g
  | _ => none

/-- Recognizer for `post_sent` event reports. -/
def isSendReport : BotCall → Bool
  | BotCall.reportPostSent _ _ => true
  | _ => false

/-- Recognizer for per-target `error` event reports. -/
def isErrorReport : BotCall → Bool
  | BotCall.reportError _ _ => true
  | _ => false

/-! ### Library lemmas about the dictionary model -/

theorem dictGet_dictSet {α β : Type} [DecidableEq α]
    (l : List (α × β)) (k k' : α) (v : β) :
    dictGet (dictSet l k v) k' = if k = k' then some v else dictGet l k' := by
  induction l with
  | nil => by_cases h : k = k' <;> simp [dictSet, dictGet, h]
  | cons p rest ih =>
    obtain ⟨a, b⟩ := p
    by_cases h1 : a = k
    · subst h1
      by_cases h2 : a = k' <;> simp [dictSet, dictGet, h2]
    · simp only [dictSet, if_neg h1, dictGet]
      by_cases h3 : a = k'
      · subst h3
        rw [if_pos rfl, if_neg (fun hh => h1 hh.symm), if_pos rfl]
      · simp only [if_neg h3, ih]

theorem dictGet_eq_none_of_not_mem {α β : Type} [DecidableEq α]
    (l : List (α × β)) (k : α) (h : k ∉ l.map Prod.fst) : dictGet l k = none := by
  induction l with
  | nil => rfl
  | cons p rest ih =>
    obtain ⟨a, b⟩ := p
    simp only [List.map_cons, List.mem_cons] at h
    push_neg at h
    have hak : ¬ a = k := fun hh => h.1 hh.symm
    simp only [dictGet, if_neg hak]
    exact ih h.2

theorem dictGet_dictDel_self {α β : Type} [DecidableEq α]
    (l : List (α × β)) (k : α) (hnd : (l.map Prod.fst).Nodup) :
    dictGet (dictDel l k) k = none := by
  induction l with
  | nil => rfl
  | cons p rest ih =>
    obtain ⟨a, b⟩ := p
    simp only [List.map_cons, List.nodup_cons] at hnd
    by_cases h1 : a = k
    · subst h1
      simp only [dictDel, if_pos rfl]
      exact dictGet_eq_none_of_not_mem rest a hnd.1
    · simp only [dictDel, if_neg h1, dictGet, if_neg h1]
      exact ih hnd.2

theorem dictGet_dictDel_ne {α β : Type} [DecidableEq α]
    (l : List (α × β)) (k k' : α) (h : k ≠ k') :
    dictGet (dictDel l k) k' = dictGet l k' := by
  induction l with
  | nil => rfl
  | cons p rest ih =>
    obtain ⟨a, b⟩ := p
    by_cases h1 : a = k
    · subst h1
      simp [dictDel, dictGet, if_neg h]
    · simp only [dictDel, if_neg h1, dictGet]
      by_cases h3 : a = k'
      · simp only [if_pos h3]
      · simp only [if_neg h3, ih]

theorem keys_dictSet {α β : Type} [DecidableEq α]
    (l : List (α × β)) (k : α) (v : β) :
    (dictSet l k v).map Prod.fst =
      if k ∈ l.map Prod.fst then l.map Prod.fst else l.map Prod.fst ++ [k] := by
  induction l with
  | nil => simp [dictSet]
  | cons p rest ih =>
    obtain ⟨a, b⟩ := p
    by_cases h1 : a = k
    · subst h1
      simp [dictSet]
    · have hka : ¬ k = a := fun hh => h1 hh.symm
      simp only [dictSet, if_neg h1, List.map_cons, List.mem_cons, ih]
      by_cases h3 : k ∈ rest.map Prod.fst
      · simp [h3, hka]
      · simp [h3, hka]

theorem keys_dictSet_nodup {α β : Type} [DecidableEq α]
    (l : List (α × β)) (k : α) (v : β) (hnd : (l.map Prod.fst).Nodup) :
    ((dictSet l k v).map Prod.fst).Nodup := by
  rw [keys_dictSet]
  by_cases h3 : k ∈ l.map Prod.fst
  · simp only [if_pos h3]
    exact hnd
  · simp only [if_neg h3]
    simp [List.nodup_append, hnd, h3]

theorem mem_keys_dictDel {α β : Type} [DecidableEq α]
    (l : List (α × β)) (k x : α) (h : x ∈ (dictDel l k).map Prod.fst) :
    x ∈ l.map Prod.fst := by
  induction l with
  | nil => simp [dictDel] at h
  | cons p rest ih =>
    obtain ⟨a, b⟩ := p
    by_cases h1 : a = k
    · subst h1
      simp only [dictDel, if_pos rfl] at h
      exact List.mem_cons_of_mem _ h
    · simp only [dictDel, if_neg h1, List.map_cons, List.mem_cons] at h ⊢
      rcases h with hh | hh
      · exact Or.inl hh
      · exact Or.inr (ih hh)

theorem keys_dictDel_nodup {α β : Type} [DecidableEq α]
    (l : List (α × β)) (k : α) (hnd : (l.map Prod.fst).Nodup) :
    ((dictDel l k).map Prod.fst).Nodup := by
  induction l with
  | nil => simp [dictDel]
  | cons p rest ih =>
    obtain ⟨a, b⟩ := p
    simp only [List.map_cons, List.nodup_cons] at hnd
    by_cases h1 : a = k
    · subst h1
      simp only [dictDel, if_pos rfl]
      exact hnd.2
    · simp only [dictDel, if_neg h1, List.map_cons, List.nodup_cons]
      exact ⟨fun hh => hnd.1 (mem_keys_dictDel rest k a hh), ih hnd.2⟩


example : hasLink "check http://x.com".toList = true := by decide
example : hasLink "hello world".toList = false := by decide
example : hasLink "ping @someone now".toList = true := by decide
example : hasLink "WWW.EXAMPLE.COM".toList = true := by decide
example : hasLink "mail me @ the office".toList = false := by decide

theorem dictDel_dictSet {α β : Type} [DecidableEq α]
    (l : List (α × β)) (k : α) (v : β) :
    dictDel (dictSet l k v) k = dictDel l k := by
  induction l with
  | nil => simp [dictSet, dictDel]
  | cons p rest ih =>
    obtain ⟨a, b⟩ := p
    by_cases h1 : a = k
    · subst h1
      simp [dictSet, dictDel]
    · simp only [dictSet, if_neg h1, dictDel, ih]

theorem dictDel_of_none {α β : Type} [DecidableEq α]
    (l : List (α × β)) (k : α) (h : dictGet l k = none) : dictDel l k = l := by
  induction l with
  | nil => rfl
  | cons p rest ih =>
    obtain ⟨a, b⟩ := p
    by_cases h1 : a = k
    · subst h1
      simp [dictGet] at h
    · simp only [dictGet, if_neg h1] at h
      simp only [dictDel, if_neg h1, ih h]

theorem dictGet_dictUpdate {α β : Type} [DecidableEq α]
    (new : List (α × β)) (old : List (α × β)) (k : α)
    (hnd : (new.map Prod.fst).Nodup) :
    (dictGet new k = none → dictGet (dictUpdate old new) k = dictGet old k) ∧
    (∀ v, dictGet new k = some v → dictGet (dictUpdate old new) k = some v) := by
  induction new generalizing old with
  | nil => exact ⟨fun _ => rfl, fun v hv => by simp [dictGet] at hv⟩
  | cons p rest ih =>
    obtain ⟨a, b⟩ := p
    simp only [List.map_cons, List.nodup_cons] at hnd
    have hstep : dictUpdate old ((a, b) :: rest) = dictUpdate (dictSet old a b) rest := rfl
    rw [hstep]
    by_cases h1 : a = k
    · subst h1
      have hrest : dictGet rest a = none :=
        dictGet_eq_none_of_not_mem rest a hnd.1
      constructor
      · intro hnone
        simp [dictGet] at hnone
      · intro v hv
        simp [dictGet] at hv
        rw [(ih (dictSet old a b) hnd.2).1 hrest, dictGet_dictSet, if_pos rfl, hv]
    · constructor
      · intro hnone
        simp only [dictGet, if_neg h1] at hnone
        rw [(ih (dictSet old a b) hnd.2).1 hnone, dictGet_dictSet, if_neg h1]
      · intro v hv
        simp only [dictGet, if_neg h1] at hv
        exact (ih (dictSet old a b) hnd.2).2 v hv

/-! ### Character lemmas for lowercasing and the link pattern -/

theorem char_toNat_ofNat (n : Nat) (h : n.isValidChar) :
    (Char.ofNat n).toNat = n := by
  rw [Char.ofNat, dif_pos h]
  rfl

theorem toNat_toLower (c : Char) :
    c.toLower.toNat =
      if 65 ≤ c.toNat ∧ c.toNat ≤ 90 then c.toNat + 32 else c.toNat := by
  rw [Char.toLower]
  by_cases h : c.toNat ≥ 65 ∧ c.toNat ≤ 90
  · rw [if_pos h, if_pos ⟨h.1, h.2⟩]
    exact char_toNat_ofNat _ (Or.inl (by omega))
  · rw [if_neg h, if_neg (fun hh => h ⟨hh.1, hh.2⟩)]

theorem char_eq_iff_toNat_eq (a b : Char) : a = b ↔ a.toNat = b.toNat := by
  constructor
  · intro h; rw [h]
  · intro h
    apply Char.eq_of_val_eq
    exact UInt32.toNat.inj h

theorem toLower_idem (c : Char) : c.toLower.toLower = c.toLower := by
  rw [char_eq_iff_toNat_eq, toNat_toLower, toNat_toLower c]
  by_cases h : 65 ≤ c.toNat ∧ c.toNat ≤ 90
  · rw [if_pos h, if_neg (by omega)]
  · rw [if_neg h, if_neg h]

theorem toLower_eq_atSign (c : Char) (h : c.toLower = '@') : c = '@' := by
  rw [char_eq_iff_toNat_eq] at h ⊢
  rw [toNat_toLower] at h
  by_cases h1 : 65 ≤ c.toNat ∧ c.toNat ≤ 90
  · rw [if_pos h1] at h
    have h64 : ('@' : Char).toNat = 64 := rfl
    omega
  · rwa [if_neg h1] at h

theorem isWordChar_of_toLower (c : Char) (h : isWordChar c.toLower = true) :
    isWordChar c = true := by
  unfold isWordChar at h ⊢
  rw [Bool.or_eq_true, Bool.or_eq_true, Bool.or_eq_true] at h ⊢
  simp only [Bool.and_eq_true, decide_eq_true_eq, beq_iff_eq] at h ⊢
  rw [toNat_toLower] at h
  by_cases h1 : 65 ≤ c.toNat ∧ c.toNat ≤ 90
  · rw [if_pos h1] at h
    omega
  · rwa [if_neg h1] at h

theorem isWordChar_toLower (c : Char) (h : isWordChar c = true) :
    isWordChar c.toLower = true := by
  unfold isWordChar at h ⊢
  rw [Bool.or_eq_true, Bool.or_eq_true, Bool.or_eq_true] at h ⊢
  simp only [Bool.and_eq_true, decide_eq_true_eq, beq_iff_eq] at h ⊢
  rw [toNat_toLower]
  by_cases h1 : 65 ≤ c.toNat ∧ c.toNat ≤ 90
  · rw [if_pos h1]
    omega
  · rw [if_neg h1]
    omega

/-! ### Lemmas about the link pattern -/

theorem hasLink_of_containsSub_handle (c : Char) (p : List Char)
    (hc : isWordChar c = true) :
    ∀ t, containsSub ('@' :: c :: p) t = true → hasLink t = true := by
  intro t
  induction t with
  | nil =>
    intro h
    simp [containsSub, isPrefixOfChars] at h
  | cons d rest ih =>
    intro h
    rw [containsSub, Bool.or_eq_true] at h
    rcases h with h | h
    · rw [isPrefixOfChars, Bool.and_eq_true, decide_eq_true_eq] at h
      obtain ⟨hd, htl⟩ := h
      subst hd
      cases rest with
      | nil => simp [isPrefixOfChars] at htl
      | cons e rest2 =>
        rw [isPrefixOfChars, Bool.and_eq_true, decide_eq_true_eq] at htl
        obtain ⟨hce, _⟩ := htl
        subst hce
        rw [hasLink, Bool.or_eq_true]
        left
        rw [linkAt]
        simp [atHandleAt, hc]
    · rw [hasLink, Bool.or_eq_true]
      right
      exact ih h

theorem startsWithCI_lower (pat : List Char) :
    ∀ l, startsWithCI pat (lowerList l) = startsWithCI pat l := by
  induction pat with
  | nil => intro l; rfl
  | cons p ps ih =>
    intro l
    cases l with
    | nil => rfl
    | cons c cs =>
      have h1 : lowerList (c :: cs) = Char.toLower c :: lowerList cs := rfl
      rw [h1, startsWithCI, startsWithCI, ih]
      have h2 : lcEq p (Char.toLower c) = lcEq p c := by
        unfold lcEq
        rw [toLower_idem]
      rw [h2]

theorem hasLink_of_lower : ∀ t, hasLink (lowerList t) = true → hasLink t = true := by
  intro t
  induction t with
  | nil => exact fun h => h
  | cons d rest ih =>
    intro h
    have hl : lowerList (d :: rest) = Char.toLower d :: lowerList rest := rfl
    rw [hl, hasLink, Bool.or_eq_true] at h
    rw [hasLink, Bool.or_eq_true]
    rcases h with h | h
    · left
      rw [linkAt] at h
      rw [linkAt]
      simp only [Bool.or_eq_true] at h ⊢
      rcases h with (((h | h) | h) | h) | h
      · exact Or.inl (Or.inl (Or.inl (Or.inl (by rw [← startsWithCI_lower]; exact h))))
      · exact Or.inl (Or.inl (Or.inl (Or.inr (by rw [← startsWithCI_lower]; exact h))))
      · exact Or.inl (Or.inl (Or.inr (by rw [← startsWithCI_lower]; exact h)))
      · exact Or.inl (Or.inr (by rw [← startsWithCI_lower]; exact h))
      · right
        clear ih hl
        revert h
        cases rest with
        | nil =>
          intro h
          have h0 : atHandleAt (Char.toLower d :: lowerList []) = false := rfl
          rw [h0] at h
          exact absurd h (by decide)
        | cons e rest2 =>
          intro h
          have h1 : (Char.toLower d == '@' && isWordChar (Char.toLower e)) = true := h
          rw [Bool.and_eq_true, beq_iff_eq] at h1
          rw [atHandleAt, Bool.and_eq_true, beq_iff_eq]
          exact ⟨toLower_eq_atSign d h1.1, isWordChar_of_toLower e h1.2⟩
    · exact Or.inr (ih h)

/-! ### The link branch of the moderation engine -/

/-- Shared lemma: in a group, for a non-privileged (or
indeterminate-role) sender, with links disallowed and a matching
text/caption, `moderate_message` takes the link branch: delete, report
the deletion, invoke the warning ledger, leave `message_counts`
untouched. -/
theorem moderate_message_link_case (s : ModSettings) (role : Role)
    (kind : ChatKind) (msg : GroupMessage) (st : ModState) (userId now : Nat)
    (hkind : kind = ChatKind.group ∨ kind = ChatKind.supergroup)
    (hrole : role ≠ Role.administrator ∧ role ≠ Role.owner)
    (hlinks : s.allow_links = false)
    (hmatch : hasLink (pyOrStr msg.text (pyOrStr msg.caption "")).toList = true) :
    moderate_message s role kind msg st userId now =
      (true,
       { st with warned_users := (warn_user_internal st.warned_users userId).1 },
       [Event.message_deleted userId,
        (warn_user_internal st.warned_users userId).2]) := by
  unfold moderate_message
  have h1 : ¬(kind ≠ ChatKind.group ∧ kind ≠ ChatKind.supergroup) := by
    rcases hkind with h | h <;> simp [h]
  rw [if_neg h1]
  have h2 : ¬(role = Role.administrator ∨ role = Role.owner) := by
    rintro (h | h)
    · exact hrole.1 h
    · exact hrole.2 h
  rw [if_neg h2]
  simp only [hlinks, hmatch, Bool.not_false, Bool.true_and, if_pos]

/-! ### Claim theorems -/

/-- C1: for every group message from a non-privileged sender, when the
active policy has `allow_links = false` and the text/caption matches
the link pattern, moderation deletes the message and records the
warning (invokes the escalation ledger, whose single reported event
follows the deletion report), independently of the sender's rate-window
state and of the forward flag; `message_counts` is left untouched, so
the rate tracker is neither consulted nor updated for that message. -/
theorem moderate_message_link_priority (s : ModSettings) (role : Role)
    (kind : ChatKind) (msg : GroupMessage) (st : ModState) (userId now : Nat)
    (hkind : kind = ChatKind.group ∨ kind = ChatKind.supergroup)
    (hrole : role ≠ Role.administrator ∧ role ≠ Role.owner)
    (hlinks : s.allow_links = false)
    (hmatch : hasLink (pyOrStr msg.text (pyOrStr msg.caption "")).toList = true) :
    moderate_message s role kind msg st userId now =
      (true,
       { st with warned_users := (warn_user_internal st.warned_users userId).1 },
       [Event.message_deleted userId,
        (warn_user_internal st.warned_users userId).2]) :=
  moderate_message_link_case s role kind msg st userId now hkind hrole hlinks hmatch

/-- Witness for C1: a member in a rate-window state with three recent
timestamps posts a forwarded link message; it is deleted and warned and
the rate state is untouched. -/
theorem moderate_message_link_priority_witness :
    moderate_message default_mod_settings Role.member ChatKind.group
      { text := some "visit www.x.com", caption := none, isForward := true }
      { message_counts := [(9, [0, 1, 2])], warned_users := [] } 9 2 =
      (true,
       { message_counts := [(9, [0, 1, 2])], warned_users := [(9, 1)] },
       [Event.message_deleted 9, Event.user_warned 9 1]) := by
  rw [moderate_message_link_priority default_mod_settings Role.member ChatKind.group
    { text := some "visit www.x.com", caption := none, isForward := true }
    { message_counts := [(9, [0, 1, 2])], warned_users := [] } 9 2
    (Or.inl rfl) (by decide) rfl (by decide)]
  rfl

/-- C2: starting from a ledger with no entry for the user, the first
two `warn_user_internal` calls report `user_warned` with the running
count (1 then 2) and store that count; the third call reports a single
`user_banned` event (no `user_warned`) and removes the entry, so it is
absent immediately after. -/
theorem warn_user_three_strikes (L : List (Nat × Nat)) (uid : Nat)
    (h : dictGet L uid = none) :
    (warn_user_internal L uid).2 = Event.user_warned uid 1 ∧
    dictGet (warn_user_internal L uid).1 uid = some 1 ∧
    (warn_user_internal (warn_user_internal L uid).1 uid).2 =
      Event.user_warned uid 2 ∧
    dictGet (warn_user_internal (warn_user_internal L uid).1 uid).1 uid = some 2 ∧
    (warn_user_internal
        (warn_user_internal (warn_user_internal L uid).1 uid).1 uid).2 =
      Event.user_banned uid 3 ∧
    dictGet (warn_user_internal
        (warn_user_internal (warn_user_internal L uid).1 uid).1 uid).1 uid =
      none := by
  have e1 : warn_user_internal L uid =
      (dictSet L uid 1, Event.user_warned uid 1) := by
    unfold warn_user_internal
    rw [h]
    rfl
  have g1 : dictGet (dictSet L uid 1) uid = some 1 := by
    rw [dictGet_dictSet, if_pos rfl]
  have e2 : warn_user_internal (dictSet L uid 1) uid =
      (dictSet (dictSet L uid 1) uid 2, Event.user_warned uid 2) := by
    unfold warn_user_internal
    rw [g1]
    rfl
  have g2 : dictGet (dictSet (dictSet L uid 1) uid 2) uid = some 2 := by
    rw [dictGet_dictSet, if_pos rfl]
  have e3 : warn_user_internal (dictSet (dictSet L uid 1) uid 2) uid =
      (dictDel (dictSet (dictSet (dictSet L uid 1) uid 2) uid 3) uid,
       Event.user_banned uid 3) := by
    unfold warn_user_internal
    rw [g2]
    rfl
  have g3 : dictGet
      (dictDel (dictSet (dictSet (dictSet L uid 1) uid 2) uid 3) uid) uid =
      none := by
    rw [dictDel_dictSet, dictDel_dictSet, dictDel_dictSet, dictDel_of_none L uid h, h]
  rw [e1]
  rw [show (dictSet L uid 1, Event.user_warned uid 1).1 = dictSet L uid 1 from rfl]
  rw [e2]
  rw [show (dictSet (dictSet L uid 1) uid 2, Event.user_warned uid 2).1 =
      dictSet (dictSet L uid 1) uid 2 from rfl]
  rw [e3]
  exact ⟨rfl, g1, rfl, g2, rfl, g3⟩

/-- Witness for C2: three warnings for user 3 starting from the empty
ledger. -/
theorem warn_user_three_strikes_witness :
    (warn_user_internal [] 3).2 = Event.user_warned 3 1 ∧
    dictGet (warn_user_internal [] 3).1 3 = some 1 ∧
    (warn_user_internal (warn_user_internal [] 3).1 3).2 =
      Event.user_warned 3 2 ∧
    dictGet (warn_user_internal (warn_user_internal [] 3).1 3).1 3 = some 2 ∧
    (warn_user_internal
        (warn_user_internal (warn_user_internal [] 3).1 3).1 3).2 =
      Event.user_banned 3 3 ∧
    dictGet (warn_user_internal
        (warn_user_internal (warn_user_internal [] 3).1 3).1 3).1 3 = none :=
  warn_user_three_strikes [] 3 rfl

/-- C9: the ledger invariant (unique keys, every stored warning count
in `{1, 2}`) is preserved by every completed `warn_user_internal`
invocation: a count reaching 3 is never stored, because the entry is
deleted in the same invocation. -/
theorem warn_user_ledger_invariant (L : List (Nat × Nat)) (uid : Nat)
    (h : LedgerInv L) : LedgerInv (warn_user_internal L uid).1 := by
  obtain ⟨hnd, hval⟩ := h
  cases hg : dictGet L uid with
  | none =>
    have e : warn_user_internal L uid =
        (dictSet L uid 1, Event.user_warned uid 1) := by
      unfold warn_user_internal
      rw [hg]
      rfl
    rw [e]
    constructor
    · exact keys_dictSet_nodup L uid 1 hnd
    · intro u n hn
      rw [dictGet_dictSet] at hn
      by_cases hu : uid = u
      · rw [if_pos hu] at hn
        left
        injection hn with hn2
        omega
      · rw [if_neg hu] at hn
        exact hval u n hn
  | some m =>
    rcases hval uid m hg with hm | hm
    · subst hm
      have e : warn_user_internal L uid =
          (dictSet L uid 2, Event.user_warned uid 2) := by
        unfold warn_user_internal
        rw [hg]
        rfl
      rw [e]
      constructor
      · exact keys_dictSet_nodup L uid 2 hnd
      · intro u n hn
        rw [dictGet_dictSet] at hn
        by_cases hu : uid = u
        · rw [if_pos hu] at hn
          right
          injection hn with hn2
          omega
        · rw [if_neg hu] at hn
          exact hval u n hn
    · subst hm
      have e : warn_user_internal L uid =
          (dictDel (dictSet L uid 3) uid, Event.user_banned uid 3) := by
        unfold warn_user_internal
        rw [hg]
        rfl
      rw [e]
      constructor
      · exact keys_dictDel_nodup _ uid (keys_dictSet_nodup L uid 3 hnd)
      · intro u n hn
        by_cases hu : uid = u
        · subst hu
          rw [dictGet_dictDel_self _ uid (keys_dictSet_nodup L uid 3 hnd)] at hn
          cases hn
        · rw [dictGet_dictDel_ne _ uid u hu, dictGet_dictSet, if_neg hu] at hn
          exact hval u n hn

/-- Witness for C9: the invariant holds for the empty ledger and is
propagated through one invocation for user 5. -/
theorem warn_user_ledger_invariant_witness :
    LedgerInv (warn_user_internal [] 5).1 :=
  warn_user_ledger_invariant [] 5
    ⟨List.nodup_nil, fun uid n hn => by simp [dictGet] at hn⟩

/-- C3 (refutation, code bug): the window cleanup keeps a timestamp
that is exactly 86400 seconds (one full day) old, because
`(now - ts).seconds < 60` reads the seconds-of-day component of the
`timedelta`, not its total length; consequently six messages spaced
exactly one day apart are judged to be spam under the default limit 5,
although every pair of them is far more than 60 seconds apart. -/
theorem check_spam_counts_day_old_timestamps :
    (check_spam 5 [0] 86400).1 = [0, 86400] ∧
    (86400 : Nat) > 60 ∧
    (check_spam 5 [0, 86400, 172800, 259200, 345600] 432000).2 = true := by
  refine ⟨rfl, by omega, rfl⟩

/-- C4 (counterexample): a failed role lookup does not suppress
moderation: a link message from a sender whose role lookup raised an
exception is still deleted and its sender warned, exactly as for a
non-privileged member. -/
theorem moderate_message_lookup_error_cex :
    moderate_message default_mod_settings Role.lookupError ChatKind.group
      { text := some "http://x.com", caption := none, isForward := false }
      { message_counts := [], warned_users := [] } 7 0 =
      (true, { message_counts := [], warned_users := [(7, 1)] },
       [Event.message_deleted 7, Event.user_warned 7 1]) := by rfl

/-- C4 (amended): administrators and owners are never moderated (the
engine returns the not-deleted outcome with no state change and no
events, for every chat kind); a role-lookup failure is instead treated
as a non-privileged sender, and moderation proceeds exactly as for a
member. -/
theorem moderate_message_privileged_exemption (s : ModSettings)
    (kind : ChatKind) (msg : GroupMessage) (st : ModState) (userId now : Nat) :
    moderate_message s Role.administrator kind msg st userId now =
      (false, st, []) ∧
    moderate_message s Role.owner kind msg st userId now = (false, st, []) ∧
    moderate_message s Role.lookupError kind msg st userId now =
      moderate_message s Role.member kind msg st userId now := by
  refine ⟨?_, ?_, ?_⟩
  · unfold moderate_message
    by_cases hk : kind ≠ ChatKind.group ∧ kind ≠ ChatKind.supergroup
    · rw [if_pos hk]
    · rw [if_neg hk, if_pos (Or.inl rfl)]
  · unfold moderate_message
    by_cases hk : kind ≠ ChatKind.group ∧ kind ≠ ChatKind.supergroup
    · rw [if_pos hk]
    · rw [if_neg hk, if_pos (Or.inr rfl)]
  · unfold moderate_message
    by_cases hk : kind ≠ ChatKind.group ∧ kind ≠ ChatKind.supergroup
    · rw [if_pos hk, if_pos hk]
    · have h1 : ¬(Role.lookupError = Role.administrator ∨
          Role.lookupError = Role.owner) := by
        rintro (h | h) <;> cases h
      have h2 : ¬(Role.member = Role.administrator ∨
          Role.member = Role.owner) := by
        rintro (h | h) <;> cases h
      rw [if_neg hk, if_neg hk, if_neg h1, if_neg h2]

/-- C5 (counterexample): an administrator posting a message containing
`http://x.com` in a group with `allow_links = false` is exempt from
moderation: nothing is deleted, no warning is recorded and no event is
emitted, contradicting the claimed delete-and-warn outcome. -/
theorem moderate_admin_link_scenario_cex :
    moderate_message default_mod_settings Role.administrator ChatKind.group
      { text := some "check http://x.com", caption := none, isForward := false }
      { message_counts := [], warned_users := [] } 42 0 =
      (false, { message_counts := [], warned_users := [] }, []) := by rfl

/-- C5 (amended): a non-privileged member posting a message containing
`http://x.com` in a group with `allow_links=false` and a fresh warning
state has the message deleted, the warning count becomes 1, exactly one
`user_warned` event is emitted and no ban occurs. -/
theorem moderate_member_link_scenario (uid : Nat) :
    moderate_message default_mod_settings Role.member ChatKind.group
      { text := some "check http://x.com", caption := none, isForward := false }
      { message_counts := [], warned_users := [] } uid 0 =
      (true, { message_counts := [], warned_users := [(uid, 1)] },
       [Event.message_deleted uid, Event.user_warned uid 1]) := by rfl

/-! ### Fan-out lemmas for the broadcast dispatcher -/

theorem fanout_filter_mark (f : Int → Bool) (pid : Nat)
    (img : Option String) (c : String) : ∀ ts : List Int,
    (ts.flatMap (dispatch_to_target f pid img c)).filter isMarkExecuted = [] := by
  intro ts
  induction ts with
  | nil => rfl
  | cons g gs ih =>
    rw [List.flatMap_cons, List.filter_append, ih, List.append_nil]
    cases hg : f g <;> cases img <;>
      simp [dispatch_to_target, hg, isMarkExecuted]

theorem fanout_filterMap_attempt (f : Int → Bool) (pid : Nat)
    (img : Option String) (c : String) : ∀ ts : List Int,
    (ts.flatMap (dispatch_to_target f pid img c)).filterMap attemptTarget = ts := by
  intro ts
  induction ts with
  | nil => rfl
  | cons g gs ih =>
    rw [List.flatMap_cons, List.filterMap_append, ih]
    cases hg : f g <;> cases img <;>
      simp [dispatch_to_target, hg, attemptTarget]

theorem fanout_countP_send (f : Int → Bool) (pid : Nat)
    (img : Option String) (c : String) : ∀ ts : List Int,
    (ts.flatMap (dispatch_to_target f pid img c)).countP isSendReport =
      (ts.filter (fun g => f g)).length := by
  intro ts
  induction ts with
  | nil => rfl
  | cons g gs ih =>
    rw [List.flatMap_cons, List.countP_append, ih]
    cases hg : f g <;> cases img <;>
      simp [dispatch_to_target, hg, isSendReport, List.filter_cons] <;> omega

theorem fanout_countP_error (f : Int → Bool) (pid : Nat)
    (img : Option String) (c : String) : ∀ ts : List Int,
    (ts.flatMap (dispatch_to_target f pid img c)).countP isErrorReport =
      (ts.filter (fun g => !f g)).length := by
  intro ts
  induction ts with
  | nil => rfl
  | cons g gs ih =>
    rw [List.flatMap_cons, List.countP_append, ih]
    cases hg : f g <;> cases img <;>
      simp [dispatch_to_target, hg, isErrorReport, List.filter_cons] <;> omega

theorem fanout_mem_send (f : Int → Bool) (pid : Nat)
    (img : Option String) (c : String) (ts : List Int) (g : Int)
    (hmem : g ∈ ts) (hok : f g = true) :
    BotCall.reportPostSent pid g ∈ ts.flatMap (dispatch_to_target f pid img c) := by
  induction ts with
  | nil => cases hmem
  | cons a gs ih =>
    rw [List.flatMap_cons, List.mem_append]
    rcases List.mem_cons.mp hmem with h | h
    · subst h
      left
      cases img <;> simp [dispatch_to_target, hok]
    · exact Or.inr (ih h)

theorem fanout_mem_error (f : Int → Bool) (pid : Nat)
    (img : Option String) (c : String) (ts : List Int) (g : Int)
    (hmem : g ∈ ts) (hbad : f g = false) :
    BotCall.reportError pid g ∈ ts.flatMap (dispatch_to_target f pid img c) := by
  induction ts with
  | nil => cases hmem
  | cons a gs ih =>
    rw [List.flatMap_cons, List.mem_append]
    rcases List.mem_cons.mp hmem with h | h
    · subst h
      left
      cases img <;> simp [dispatch_to_target, hbad]
    · exact Or.inr (ih h)

/-- C7: for every fetched post, each target chat is attempted
independently and in order; each failing target contributes exactly its
`error` event carrying the post id and the target, each succeeding
target exactly its `post_sent` report, and after all targets have been
attempted (including the zero-target case) the mark-executed call is
issued exactly once. -/
theorem execute_scheduled_post_spec (deliverOk : Int → Bool)
    (post : ScheduledPost) :
    (execute_scheduled_post deliverOk post).filter isMarkExecuted =
      [BotCall.markExecuted post.id] ∧
    (execute_scheduled_post deliverOk post).filterMap attemptTarget =
      post.target_groups ∧
    (execute_scheduled_post deliverOk post).countP isSendReport =
      (post.target_groups.filter (fun g => deliverOk g)).length ∧
    (execute_scheduled_post deliverOk post).countP isErrorReport =
      (post.target_groups.filter (fun g => !deliverOk g)).length ∧
    (∀ g ∈ post.target_groups, deliverOk g = true →
      BotCall.reportPostSent post.id g ∈ execute_scheduled_post deliverOk post) ∧
    (∀ g ∈ post.target_groups, deliverOk g = false →
      BotCall.reportError post.id g ∈ execute_scheduled_post deliverOk post) := by
  unfold execute_scheduled_post
  refine ⟨?_, ?_, ?_, ?_, ?_, ?_⟩
  · rw [List.filter_append, fanout_filter_mark]
    rfl
  · rw [List.filterMap_append, fanout_filterMap_attempt,
      show List.filterMap attemptTarget [BotCall.markExecuted post.id] = []
        from rfl,
      List.append_nil]
  · rw [List.countP_append, fanout_countP_send]
    rfl
  · rw [List.countP_append, fanout_countP_error]
    rfl
  · intro g hmem hok
    exact List.mem_append.mpr (Or.inl (fanout_mem_send _ _ _ _ _ g hmem hok))
  · intro g hmem hbad
    exact List.mem_append.mpr (Or.inl (fanout_mem_error _ _ _ _ _ g hmem hbad))

/-- Witness for C7: post 9 with targets 1 (reachable) and -2
(unreachable): one mark-executed call, a `post_sent` report for 1 and
an `error` report for -2. -/
theorem execute_scheduled_post_spec_witness :
    (execute_scheduled_post (fun g => g == 1)
        { id := 9, post_type := "promo", content := "hello",
          image_url := none, target_groups := [1, -2] }).filter isMarkExecuted =
      [BotCall.markExecuted 9] ∧
    BotCall.reportPostSent 9 1 ∈ execute_scheduled_post (fun g => g == 1)
        { id := 9, post_type := "promo", content := "hello",
          image_url := none, target_groups := [1, -2] } ∧
    BotCall.reportError 9 (-2) ∈ execute_scheduled_post (fun g => g == 1)
        { id := 9, post_type := "promo", content := "hello",
          image_url := none, target_groups := [1, -2] } :=
  ⟨(execute_scheduled_post_spec _ _).1,
   (execute_scheduled_post_spec _ _).2.2.2.2.1 1 (by decide) (by decide),
   (execute_scheduled_post_spec _ _).2.2.2.2.2 (-2) (by decide) (by decide)⟩

/-- C8: after a successful (status 200) refresh, every key present in
the fetched object takes its fetched value and every absent key keeps
its previous value; on a transport error or a non-200 status the
settings are left entirely unchanged. -/
theorem fetch_mod_settings_spec {β : Type} (settings body : List (String × β))
    (key : String) (status : Nat) (hnd : (body.map Prod.fst).Nodup) :
    (∀ v, dictGet body key = some v →
      dictGet (fetch_mod_settings settings (ApiResult.ok 200 body)) key = some v) ∧
    (dictGet body key = none →
      dictGet (fetch_mod_settings settings (ApiResult.ok 200 body)) key =
        dictGet settings key) ∧
    fetch_mod_settings settings ApiResult.err = settings ∧
    (status ≠ 200 →
      fetch_mod_settings settings (ApiResult.ok status body) = settings) := by
  have he0 : fetch_mod_settings settings (ApiResult.ok 200 body) =
      if (200 : Nat) = 200 then dictUpdate settings body else settings := rfl
  have he : fetch_mod_settings settings (ApiResult.ok 200 body) =
      dictUpdate settings body := by rw [he0, if_pos rfl]
  have he3 : fetch_mod_settings settings (ApiResult.ok status body) =
      if status = 200 then dictUpdate settings body else settings := rfl
  refine ⟨?_, ?_, rfl, ?_⟩
  · intro v hv
    rw [he]
    exact (dictGet_dictUpdate body settings key hnd).2 v hv
  · intro hnone
    rw [he]
    exact (dictGet_dictUpdate body settings key hnd).1 hnone
  · intro hs
    rw [he3, if_neg hs]

/-- Witness for C8: merging `[(a, 7)]` over `[(a, 1), (b, 2)]`
overwrites `a`, keeps `b`, and an error or a 500 status changes
nothing. -/
theorem fetch_mod_settings_spec_witness :
    dictGet (fetch_mod_settings [("a", 1), ("b", 2)]
      (ApiResult.ok 200 [("a", 7)])) "a" = some 7 ∧
    dictGet (fetch_mod_settings [("a", 1), ("b", 2)]
      (ApiResult.ok 200 [("a", 7)])) "b" = dictGet [("a", 1), ("b", 2)] "b" ∧
    fetch_mod_settings [("a", 1), ("b", 2)]
      (ApiResult.err : ApiResult (List (String × Nat))) = [("a", 1), ("b", 2)] ∧
    fetch_mod_settings [("a", 1), ("b", 2)]
      (ApiResult.ok 500 [("a", 7)]) = [("a", 1), ("b", 2)] :=
  ⟨(fetch_mod_settings_spec [("a", 1), ("b", 2)] [("a", 7)] "a" 500
      (by decide)).1 7 (by decide),
   (fetch_mod_settings_spec [("a", 1), ("b", 2)] [("a", 7)] "b" 500
      (by decide)).2.1 (by decide),
   (fetch_mod_settings_spec [("a", 1), ("b", 2)] [("a", 7)] "a" 500
      (by decide)).2.2.1,
   (fetch_mod_settings_spec [("a", 1), ("b", 2)] [("a", 7)] "a" 500
      (by decide)).2.2.2 (by decide)⟩

/-! ### Characterisation of the best-match fold -/

theorem le_listMaxFrom (s : Nat) (l : List Nat) : s ≤ listMaxFrom s l := by
  induction l generalizing s with
  | nil => exact Nat.le_refl s
  | cons x xs ih =>
    have h1 : listMaxFrom s (x :: xs) = listMaxFrom (max s x) xs := rfl
    rw [h1]
    exact Nat.le_trans (Nat.le_max_left s x) (ih (max s x))

theorem pickBest_snd (t : List Char) :
    ∀ (entries : List (String × List String)) (b : Option String) (s : Nat),
    (pickBest t entries (b, s)).2 =
      listMaxFrom s (entries.map (fun p => score t p.2)) := by
  intro entries
  induction entries with
  | nil => intro b s; rfl
  | cons p rest ih =>
    intro b s
    obtain ⟨k, kws⟩ := p
    have hm : listMaxFrom s (((k, kws) :: rest).map (fun p => score t p.2)) =
        listMaxFrom (max s (score t kws)) (rest.map (fun p => score t p.2)) := rfl
    rw [hm]
    by_cases h : s < score t kws
    · have hstep : pickBest t ((k, kws) :: rest) (b, s) =
          pickBest t rest (some k, score t kws) := by
        simp only [pickBest]
        rw [if_pos h]
      rw [hstep, ih (some k) (score t kws),
        Nat.max_eq_right (Nat.le_of_lt h)]
    · have hstep : pickBest t ((k, kws) :: rest) (b, s) =
          pickBest t rest (b, s) := by
        simp only [pickBest]
        rw [if_neg h]
      rw [hstep, ih b s, Nat.max_eq_left (Nat.le_of_not_lt h)]

theorem pickBest_fst (t : List Char) :
    ∀ (entries : List (String × List String)) (b : Option String) (s : Nat),
    (pickBest t entries (b, s)).1 =
      (if listMaxFrom s (entries.map (fun p => score t p.2)) = s then b
       else (entries.find? (fun p => score t p.2 =
          listMaxFrom s (entries.map (fun q => score t q.2)))).map Prod.fst) := by
  intro entries
  induction entries with
  | nil =>
    intro b s
    simp [pickBest, listMaxFrom]
  | cons p rest ih =>
    intro b s
    obtain ⟨k, kws⟩ := p
    have hm : listMaxFrom s (((k, kws) :: rest).map (fun p => score t p.2)) =
        listMaxFrom (max s (score t kws)) (rest.map (fun p => score t p.2)) := rfl
    rw [hm]
    by_cases h : s < score t kws
    · have hstep : pickBest t ((k, kws) :: rest) (b, s) =
          pickBest t rest (some k, score t kws) := by
        simp only [pickBest]
        rw [if_pos h]
      rw [hstep, ih (some k) (score t kws),
        Nat.max_eq_right (Nat.le_of_lt h)]
      have hge := le_listMaxFrom (score t kws) (rest.map (fun p => score t p.2))
      have hms : ¬ listMaxFrom (score t kws)
          (rest.map (fun p => score t p.2)) = s := by omega
      rw [if_neg hms]
      by_cases he : score t kws =
          listMaxFrom (score t kws) (rest.map (fun p => score t p.2))
      · rw [if_pos he.symm,
          List.find?_cons_of_pos _ (by simpa using he)]
        rfl
      · rw [if_neg (fun hh => he hh.symm),
          List.find?_cons_of_neg _ (by simpa using he)]
    · have hstep : pickBest t ((k, kws) :: rest) (b, s) =
          pickBest t rest (b, s) := by
        simp only [pickBest]
        rw [if_neg h]
      rw [hstep, ih b s, Nat.max_eq_left (Nat.le_of_not_lt h)]
      by_cases hms : listMaxFrom s (rest.map (fun p => score t p.2)) = s
      · rw [if_pos hms, if_pos hms]
      · rw [if_neg hms, if_neg hms]
        have hscle : score t kws ≤ s := Nat.le_of_not_lt h
        have hge := le_listMaxFrom s (rest.map (fun p => score t p.2))
        rw [List.find?_cons_of_neg _ (by simp; omega)]

/-- C6: the addressed-mode responder is a pure function of the
lowercased text, keyword table and knowledge base (hence deterministic
across runs), and it computes exactly the specification's selection
rule: the topic of strictly highest score — first-seen topic winning
ties, since the fold updates only on strict `>` — and the fixed
capability-summary fallback whenever the best score is zero. -/
theorem intelligent_response_matches_spec (t : List Char) :
    intelligent_response t =
      (match specBestTopic t with
       | some k => Reply.kb k
       | none => Reply.fallback) := by
  have hcontains : ∀ p ∈ keywords_map,
      knowledge_base_keys.contains p.1 = true := by decide
  simp only [intelligent_response, specBestTopic, topicScores]
  rw [pickBest_fst t keywords_map none 0]
  split_ifs with h0
  · rfl
  · cases hf : keywords_map.find? (fun p => score t p.2 =
        listMaxFrom 0 (keywords_map.map (fun q => score t q.2))) with
    | none => rfl
    | some p =>
      have hmem : p ∈ keywords_map := List.mem_of_find?_eq_some hf
      have hrw : Option.map Prod.fst (some p) = some p.1 := rfl
      rw [hrw]
      show (if knowledge_base_keys.contains p.1 = true then Reply.kb p.1
        else Reply.fallback) = Reply.kb p.1
      rw [if_pos (hcontains p hmem)]

/-- C10: with `allow_links = false`, a non-admin group message whose
text contains an `@` followed by a word character — which covers every
explicit `@username` mention of the bot, the username being made of
word characters — matches the link pattern and is deleted by the
moderation step before the responder runs; consequently, for non-admin
senders the addressed responder mode is reachable only through a reply
to a bot message, never through an `@`-mention in the text. -/
theorem handle_group_message_mention_gate (s : ModSettings) (role : Role)
    (kind : ChatKind) (bun : String) (msg : GroupMessage) (replyToBot : Bool)
    (st : ModState) (userId now : Nat)
    (hkind : kind = ChatKind.group ∨ kind = ChatKind.supergroup)
    (hrole : role ≠ Role.administrator ∧ role ≠ Role.owner)
    (hlinks : s.allow_links = false)
    (hbun : ∀ c ∈ bun.toList, isWordChar c = true)
    (hbne : bun.toList ≠ []) :
    (∀ (w : Char) (p : List Char), isWordChar w = true →
      containsSub ('@' :: w :: p)
        (pyOrStr msg.text (pyOrStr msg.caption "")).toList = true →
      (handle_group_message s role kind bun msg replyToBot st userId now).1 =
        HandlerResult.moderated) ∧
    (replyToBot = false → ∀ r : Reply,
      (handle_group_message s role kind bun msg replyToBot st userId now).1 ≠
        HandlerResult.addressed r) := by
  constructor
  · intro w p hw hcs
    have hl : hasLink (pyOrStr msg.text (pyOrStr msg.caption "")).toList = true :=
      hasLink_of_containsSub_handle w p hw _ hcs
    have hm := moderate_message_link_case s role kind msg st userId now
      hkind hrole hlinks hl
    simp [handle_group_message, hm]
  · intro hrb r had
    cases hdel : (moderate_message s role kind msg st userId now).1 with
    | true =>
      simp [handle_group_message, hdel] at had
    | false =>
      cases hment : containsSub ('@' :: lowerList bun.toList)
          (lowerList (msg.text.getD "").toList) with
      | false =>
        rw [handle_group_message] at had
        simp only [hdel, hrb, hment, Bool.false_or, Bool.not_false,
          if_false, if_true] at had
        rw [if_neg (by decide : ¬ (false = true))] at had
        cases hscan : kb_scan (lowerList (msg.text.getD "").toList) with
        | none =>
          rw [hscan] at had
          exact HandlerResult.noConfusion had
        | some k =>
          rw [hscan] at had
          exact HandlerResult.noConfusion had
      | true =>
        obtain ⟨w, ws, hbl⟩ : ∃ w ws, bun.toList = w :: ws := by
          cases hb : bun.toList with
          | nil => exact absurd hb hbne
          | cons w ws => exact ⟨w, ws, rfl⟩
        have hw : isWordChar w = true := by
          apply hbun
          rw [hbl]
          exact List.mem_cons_self w ws
        have hwl : isWordChar (Char.toLower w) = true := isWordChar_toLower w hw
        cases htext : msg.text with
        | none =>
          rw [htext] at hment
          have h0 : containsSub ('@' :: lowerList bun.toList)
              (lowerList ((none : Option String).getD "").toList) = false := by
            rw [hbl]
            rfl
          rw [h0] at hment
          cases hment
        | some txt =>
          by_cases hemp : txt = ""
          · rw [htext, hemp] at hment
            have h0 : containsSub ('@' :: lowerList bun.toList)
                (lowerList ((some "").getD "").toList) = false := by
              rw [hbl]
              rfl
            rw [h0] at hment
            cases hment
          · have hmention2 : containsSub
                ('@' :: Char.toLower w :: lowerList ws)
                (lowerList txt.toList) = true := by
              rw [htext, hbl] at hment
              exact hment
            have hll : hasLink (lowerList txt.toList) = true :=
              hasLink_of_containsSub_handle (Char.toLower w) (lowerList ws)
                hwl _ hmention2
            have hlk : hasLink txt.toList = true := hasLink_of_lower _ hll
            have htext_eq : pyOrStr msg.text (pyOrStr msg.caption "") = txt := by
              rw [htext]
              simp [pyOrStr, hemp]
            have hm := moderate_message_link_case s role kind msg st userId now
              hkind hrole hlinks (by rw [htext_eq]; exact hlk)
            rw [hm] at hdel
            cases hdel

/-- Witness for C10: in a default-policy group, a member message
`"hi @earnbot"` mentioning the bot is moderated away, so the responder
is never consulted for it. -/
theorem handle_group_message_mention_gate_witness :
    (handle_group_message default_mod_settings Role.member ChatKind.group
      "earnbot" { text := some "hi @earnbot", caption := none, isForward := false }
      false { message_counts := [], warned_users := [] } 3 0).1 =
      HandlerResult.moderated :=
  (handle_group_message_mention_gate default_mod_settings Role.member
    ChatKind.group "earnbot"
    { text := some "hi @earnbot", caption := none, isForward := false }
    false { message_counts := [], warned_users := [] } 3 0
    (Or.inl rfl) (by decide) rfl (by decide) (by decide)).1
    'e' "arnbot".toList (by decide) (by decide)

end EarnQuest
